import Mathlib

/-!
Verification of the Color-separator pixel pipeline (`src/types.ts`, which contains
the type declarations and the image-processing service `applyAttributes`,
`processWhiteBase`, `processCMYK`, `processSpotColors`, `extractDominantColors`).

Modelling conventions:
* A `Pixel` is the four 8-bit samples of one RGBA pixel, kept as natural numbers.
* JavaScript floating-point arithmetic is modelled by exact real (or, where the
  code only uses field operations on decimals, rational) arithmetic.
* Hex colour strings (`#rrggbb`) are modelled by the parsed `RGB` triple; the
  `parseInt(slice ...)` calls of the source are this parsing.
* `Uint8ClampedArray` stores are kept as the exact value computed by the
  right-hand side; the claims under study do not depend on the final 8-bit
  quantisation of the colour samples.
-/

namespace ColorSep

/-- One RGBA pixel of a `PixelBuffer` (`data[i] .. data[i+3]` in the source). -/
structure Pixel where
  r : ℕ
  g : ℕ
  b : ℕ
  a : ℕ
deriving DecidableEq, Repr

/-- A parsed `#rrggbb` colour. -/
structure RGB where
  r : ℕ
  g : ℕ
  b : ℕ
deriving DecidableEq, Repr

/-- `BgRemoveMode = 'white' | 'black' | 'custom' | 'auto'` from `src/types.ts`. -/
inductive BgRemoveMode where
  | white
  | black
  | custom
  | auto
deriving DecidableEq, Repr

/-- `ImageAdjustments` from `src/types.ts`; numeric settings are modelled as
reals (the documented ranges are not runtime-enforced by the code), and
`customBgColor` as its parsed RGB triple. -/
structure ImageAdjustments where
  brightness : ℝ
  contrast : ℝ
  gamma : ℝ
  removeBg : Bool
  bgRemoveMode : BgRemoveMode
  customBgColor : RGB
  bgThreshold : ℝ

/-- A decoded image: dimensions plus the flat pixel data of the canvas. -/
structure Image where
  width : ℕ
  height : ℕ
  data : List Pixel

/-- `Math.max(0, Math.min(255, x))`, the clamp used throughout `applyAttributes`. -/
noncomputable def clamp255 (x : ℝ) : ℝ := max 0 (min 255 x)

/-- `const contrastFactor = (259 * (adj.contrast + 255)) / (255 * (259 - adj.contrast))`. -/
noncomputable def contrastFactor (contrast : ℝ) : ℝ :=
  (259 * (contrast + 255)) / (255 * (259 - contrast))

/-- The tone pipeline of `applyAttributes` on one colour sample: brightness,
then contrast, then (when `gamma ≠ 1`) gamma with an inner clamp, then the
final clamp (`src/types.ts`, the `// 1. Brightness` … `// Clamp values`
block of the per-pixel loop). -/
noncomputable def toneChannel (adj : ImageAdjustments) (c : ℝ) : ℝ :=
  let c1 := c + adj.brightness
  let c2 := contrastFactor adj.contrast * (c1 - 128) + 128
  let c3 :=
    if adj.gamma = 1 then c2
    else 255 * (clamp255 c2 / 255) ^ ((1 : ℝ) / adj.gamma)
  clamp255 c3

/-- The tone pipeline as §4.1 of the spec words it: *each* stage's result is
clamped to [0,255] before the next stage (gamma still skipped at `gamma = 1`).
This is the spec-side definition used to compare against `toneChannel`. -/
noncomputable def toneChannelSpec (adj : ImageAdjustments) (c : ℝ) : ℝ :=
  let c1 := clamp255 (c + adj.brightness)
  let c2 := clamp255 (contrastFactor adj.contrast * (c1 - 128) + 128)
  if adj.gamma = 1 then c2
  else clamp255 (255 * (clamp255 c2 / 255) ^ ((1 : ℝ) / adj.gamma))

/-- The gamma map alone, on an already-clamped sample. -/
noncomputable def gammaMap (adj : ImageAdjustments) (x : ℝ) : ℝ :=
  if adj.gamma = 1 then x else 255 * (x / 255) ^ ((1 : ℝ) / adj.gamma)

/-- Concrete settings exhibiting the missing clamp between brightness and
contrast: brightness −100, contrast −50, gamma 1. -/
noncomputable def adjC1 : ImageAdjustments :=
  { brightness := -100, contrast := -50, gamma := 1, removeBg := false,
    bgRemoveMode := .white, customBgColor := ⟨0, 0, 0⟩, bgThreshold := 0 }

/-- An output pixel of `applyAttributes`: the clamped colour samples (kept as
exact reals) and the resulting alpha byte. -/
structure OutPixel where
  r : ℝ
  g : ℝ
  b : ℝ
  a : ℕ

/-- Target-colour resolution of `applyAttributes`: `targetR/G/B` start at 255
and are overwritten inside `if (adj.removeBg)` according to the mode; `auto`
samples `data[0..2]`, the top-left pixel of the *source* data, before the
adjustment loop runs. -/
def resolveTarget (adj : ImageAdjustments) (img : Image) : RGB :=
  if adj.removeBg then
    match adj.bgRemoveMode with
    | .white => ⟨255, 255, 255⟩
    | .black => ⟨0, 0, 0⟩
    | .custom => adj.customBgColor
    | .auto =>
        let p := img.data.headD ⟨0, 0, 0, 0⟩
        ⟨p.r, p.g, p.b⟩
  else ⟨255, 255, 255⟩

/-- `tolerance = (adj.bgThreshold / 100) * 442; toleranceSq = tolerance * tolerance`. -/
noncomputable def toleranceSq (adj : ImageAdjustments) : ℝ :=
  (adj.bgThreshold / 100 * 442) * (adj.bgThreshold / 100 * 442)

/-- `if (maskData[i] > 10) forceRemove = true` (red channel of the mask). -/
def maskForceRemove (maskPx : Option Pixel) : Bool :=
  match maskPx with
  | some m => decide (10 < m.r)
  | none => false

/-- `if (maskData[i + 1] > 10) forceKeep = true` (green channel of the mask). -/
def maskForceKeep (maskPx : Option Pixel) : Bool :=
  match maskPx with
  | some m => decide (10 < m.g)
  | none => false

/-- The body of the per-pixel loop of `applyAttributes`: tone adjustment of
r, g, b, then the alpha decision — force erase, else force keep, else (when
`removeBg`) the white-luminance cutoff or the squared-distance test. -/
noncomputable def processPixel (adj : ImageAdjustments) (target : RGB)
    (maskPx : Option Pixel) (p : Pixel) : OutPixel :=
  let r := toneChannel adj (p.r : ℝ)
  let g := toneChannel adj (p.g : ℝ)
  let b := toneChannel adj (p.b : ℝ)
  let a : ℕ :=
    if maskForceRemove maskPx then 0
    else if maskForceKeep maskPx then p.a
    else if adj.removeBg then
      if adj.bgRemoveMode = .white then
        if (255 : ℝ) - adj.bgThreshold * 2.5 < 0.299 * r + 0.587 * g + 0.114 * b
          then 0 else p.a
      else
        if (r - target.r) * (r - target.r) + (g - target.g) * (g - target.g) +
            (b - target.b) * (b - target.b) ≤ toleranceSq adj
          then 0 else p.a
    else p.a
  ⟨r, g, b, a⟩

/-- The per-pixel loop: pixel `i` reads mask entries at the same index `i`. -/
noncomputable def applyPixels (adj : ImageAdjustments) (target : RGB)
    (maskData : Option (List Pixel)) : ℕ → List Pixel → List OutPixel
  | _, [] => []
  | i, p :: rest =>
      processPixel adj target (maskData.map (fun md => md.getD i ⟨0, 0, 0, 0⟩)) p ::
        applyPixels adj target maskData (i + 1) rest

/-- `applyAttributes` (`src/types.ts`): the mask is used only when its
dimensions equal the canvas dimensions, the target colour is resolved once,
and every pixel goes through the adjustment/removal loop. -/
noncomputable def applyAttributes (img : Image) (adj : ImageAdjustments)
    (userMask : Option Image) : List OutPixel :=
  let maskData : Option (List Pixel) :=
    match userMask with
    | some m =>
        if m.width = img.width ∧ m.height = img.height then some m.data else none
    | none => none
  applyPixels adj (resolveTarget adj img) maskData 0 img.data

/-- The settings obtained from `adj` by switching auto background removal to
custom removal with the *source* corner pixel's RGB as the custom colour. -/
def autoAsCustom (img : Image) (adj : ImageAdjustments) : ImageAdjustments :=
  { adj with
      bgRemoveMode := .custom,
      customBgColor := ⟨(img.data.headD ⟨0, 0, 0, 0⟩).r,
        (img.data.headD ⟨0, 0, 0, 0⟩).g, (img.data.headD ⟨0, 0, 0, 0⟩).b⟩ }

/-- Settings exhibiting the auto-target sampling point: brightness 50, auto
background removal at tolerance 0. -/
noncomputable def adjC2 : ImageAdjustments :=
  { brightness := 50, contrast := 0, gamma := 1, removeBg := true,
    bgRemoveMode := .auto, customBgColor := ⟨0, 0, 0⟩, bgThreshold := 0 }

/-- A 1×1 image whose only (hence corner) pixel is opaque mid grey. -/
def imgC2 : Image := ⟨1, 1, [⟨100, 100, 100, 255⟩]⟩

/-- Identity-like settings: no tone change, no background removal. -/
noncomputable def adjId : ImageAdjustments :=
  { brightness := 0, contrast := 0, gamma := 1, removeBg := false,
    bgRemoveMode := .white, customBgColor := ⟨0, 0, 0⟩, bgThreshold := 0 }

/-- A 1×1 image with a semi-transparent pixel. -/
def imgW3 : Image := ⟨1, 1, [⟨5, 6, 7, 200⟩]⟩

/-- A matching 1×1 mask whose pixel has Red>10 **and** Green>10. -/
def maskW3 : Image := ⟨1, 1, [⟨200, 200, 0, 0⟩]⟩

/-- A 2×1 mask, mismatching the 1×1 image. -/
def maskBad : Image := ⟨2, 1, [⟨200, 200, 0, 0⟩, ⟨200, 200, 0, 0⟩]⟩

/-- Settings for the C10 witness: black-mode removal at threshold 100. -/
noncomputable def adjC10 : ImageAdjustments :=
  { brightness := 0, contrast := 0, gamma := 1, removeBg := true,
    bgRemoveMode := .black, customBgColor := ⟨0, 0, 0⟩, bgThreshold := 100 }

/-! ### Channel separators: white underbase, CMYK, spot colours.
They consume a composited pixel buffer; densities are kept as exact values. -/

/-- `0.299 * r + 0.587 * g + 0.114 * b`, the luma of `processWhiteBase`. -/
def lumaQ (r g b : ℕ) : ℚ := 0.299 * r + 0.587 * g + 0.114 * b

/-- The one-pass scan of `processWhiteBase`: any pixel with alpha < 250. -/
def hasTransparency (buf : List Pixel) : Bool :=
  buf.any (fun p => decide (p.a < 250))

/-- `processWhiteBase` density loop: the single global `hasTransparency`
decision selects, for every pixel, either `alpha` or `255 - luma`. -/
def processWhiteBase (buf : List Pixel) : List ℚ :=
  let ht := hasTransparency buf
  buf.map (fun p => if ht then (p.a : ℚ) else 255 - lumaQ p.r p.g p.b)

/-- One pixel of `processCMYK`: fully transparent pixels are skipped (their
densities stay 0); otherwise `k = 1 - max(r,g,b)` and the guarded divisions
(`(1-r-k)/(1-k) || 0` — the denominator vanishes only when `r = g = b = 0`,
where the numerator is 0 as well, so `|| 0` turns the NaN into 0), each
density scaled by `255 * alpha`. Result order: (C, M, Y, K). -/
def cmykPixel (p : Pixel) : ℚ × ℚ × ℚ × ℚ :=
  let alpha : ℚ := p.a / 255
  if alpha = 0 then (0, 0, 0, 0)
  else
    let r : ℚ := p.r / 255
    let g : ℚ := p.g / 255
    let b : ℚ := p.b / 255
    let k : ℚ := 1 - max r (max g b)
    let c : ℚ := if 1 - k = 0 then 0 else (1 - r - k) / (1 - k)
    let m : ℚ := if 1 - k = 0 then 0 else (1 - g - k) / (1 - k)
    let y : ℚ := if 1 - k = 0 then 0 else (1 - b - k) / (1 - k)
    (c * 255 * alpha, m * 255 * alpha, y * 255 * alpha, k * 255 * alpha)

/-- `processCMYK` over the composited buffer. -/
def processCMYK (buf : List Pixel) : List (ℚ × ℚ × ℚ × ℚ) :=
  buf.map cmykPixel

/-- One configured spot-colour target: parsed RGB plus its threshold. -/
structure SpotTarget where
  r : ℕ
  g : ℕ
  b : ℕ
  threshold : ℚ

/-- `processSpotColors` per-pixel similarity: Euclidean distance, sensitivity
`1 + threshold/20`, linear falloff over `442 / sensitivity` clamped at 0,
then cubed. -/
noncomputable def spotSimilarity (t : SpotTarget) (r g b : ℕ) : ℝ :=
  let dist := Real.sqrt (((t.r : ℝ) - r) ^ 2 + ((t.g : ℝ) - g) ^ 2 +
    ((t.b : ℝ) - b) ^ 2)
  let sensitivity : ℝ := 1 + (t.threshold : ℝ) / 20
  let sim := 1 - dist / (442 / sensitivity)
  let sim2 := if sim < 0 then 0 else sim
  sim2 ^ 3

/-- Per-pixel spot density: fully transparent pixels are skipped (density
stays 0), otherwise `similarity * 255 * alpha`. -/
noncomputable def spotDensity (t : SpotTarget) (p : Pixel) : ℝ :=
  let alpha : ℝ := (p.a : ℝ) / 255
  if alpha = 0 then 0 else spotSimilarity t p.r p.g p.b * 255 * alpha

/-! ### Dominant-colour extraction (`extractDominantColors`), modelled from
the decoded sample data onward (the 100×100 canvas downsample is raster work
of the excluded codec layer; the algorithm consumes its `getImageData`). -/

/-- `Math.round(c / 24) * 24` clamped to [0,255]; for a natural sample,
`Math.round(c / 24) = (c + 12) / 24` in integer division, and the lower
clamp `Math.max(0, ·)` is vacuous. -/
def quantize (c : ℕ) : ℕ := min 255 ((c + 12) / 24 * 24)

/-- The quantized colour key of one sampled pixel. -/
def quantColor (p : Pixel) : RGB := ⟨quantize p.r, quantize p.g, quantize p.b⟩

/-- The quantized colours of the sampled pixels, skipping `a < 128`, in
sampling order. -/
def sampledColors (buf : List Pixel) : List RGB :=
  (buf.filter (fun p => decide (128 ≤ p.a))).map quantColor

/-- `colorCounts[hex] = (colorCounts[hex] || 0) + 1`: the frequency table as
an association list in first-insertion order (JavaScript string-keyed object
semantics). -/
def bumpCount (acc : List (RGB × ℕ)) (c : RGB) : List (RGB × ℕ) :=
  if acc.any (fun e => decide (e.1 = c)) then
    acc.map (fun e => if e.1 = c then (e.1, e.2 + 1) else e)
  else acc ++ [(c, 1)]

def colorCounts (cs : List RGB) : List (RGB × ℕ) := cs.foldl bumpCount []

/-- The sort order of `sortedColors`: descending frequency
(`.sort((a, b) => b[1] - a[1])`). -/
def freqGE (e1 e2 : RGB × ℕ) : Prop := e2.2 ≤ e1.2

instance : DecidableRel freqGE := fun _ e2 => Nat.decLe e2.2 _

instance : IsTotal (RGB × ℕ) freqGE := ⟨fun a b => le_total b.2 a.2⟩

instance : IsTrans (RGB × ℕ) freqGE := ⟨fun _ _ _ h1 h2 => le_trans h2 h1⟩

/-- `sortedColors`: the frequency-table entries sorted by descending count
(a stable sort, as JavaScript's `Array.prototype.sort`), keys only. -/
def sortedColors (cs : List RGB) : List RGB :=
  (List.insertionSort freqGE (colorCounts cs)).map Prod.fst

/-- Squared Euclidean RGB distance, over ℤ for the signed differences. -/
def distSqZ (c1 c2 : RGB) : ℤ :=
  ((c1.r : ℤ) - c2.r) ^ 2 + ((c1.g : ℤ) - c2.g) ^ 2 + ((c1.b : ℤ) - c2.b) ^ 2

/-- `getColorDistance`: Euclidean distance between two parsed colours. -/
noncomputable def getColorDistance (c1 c2 : RGB) : ℝ :=
  Real.sqrt (((c1.r : ℝ) - c2.r) ^ 2 + ((c1.g : ℝ) - c2.g) ^ 2 +
    ((c1.b : ℝ) - c2.b) ^ 2)

/-- The greedy selection loop: stop once `count` colours are accepted, accept
a candidate iff every accepted colour is at (squared) distance ≥ 60². -/
def selectDistinct (count : ℕ) : List RGB → List RGB → List RGB
  | acc, [] => acc
  | acc, c :: rest =>
      if count ≤ acc.length then acc
      else if acc.all (fun e => decide (¬ distSqZ e c < 3600)) then
        selectDistinct count (acc ++ [c]) rest
      else selectDistinct count acc rest

/-- `extractDominantColors` (default `count = 4` at the call sites). -/
def extractDominantColors (buf : List Pixel) (count : ℕ) : List RGB :=
  selectDistinct count [] (sortedColors (sampledColors buf))

/-! ### Helper lemmas -/

lemma clamp255_idem (x : ℝ) : clamp255 (clamp255 x) = clamp255 x := by
  unfold clamp255
  rcases le_total x 0 with h | h
  · rw [min_eq_right (by linarith : x ≤ 255)] at *
    rw [max_eq_left h, min_eq_right (by norm_num : (0:ℝ) ≤ 255), max_eq_left le_rfl]
  · rcases le_total 255 x with h' | h'
    · rw [min_eq_left h', max_eq_right (by norm_num : (0:ℝ) ≤ 255),
        min_eq_left le_rfl, max_eq_right (by norm_num : (0:ℝ) ≤ 255)]
    · rw [min_eq_right h', max_eq_right h, min_eq_right h', max_eq_right h]

lemma clamp255_nonneg (x : ℝ) : 0 ≤ clamp255 x := le_max_left 0 _

lemma clamp255_le_255 (x : ℝ) : clamp255 x ≤ 255 :=
  max_le (by norm_num) (min_le_left _ _)

lemma toneChannel_nonneg (adj : ImageAdjustments) (c : ℝ) :
    0 ≤ toneChannel adj c := clamp255_nonneg _

lemma toneChannel_le_255 (adj : ImageAdjustments) (c : ℝ) :
    toneChannel adj c ≤ 255 := clamp255_le_255 _

lemma sq_diff_le_65025 (x y : ℝ) (hx0 : 0 ≤ x) (hx : x ≤ 255)
    (hy0 : 0 ≤ y) (hy : y ≤ 255) : (x - y) * (x - y) ≤ 65025 := by
  nlinarith

lemma applyPixels_getElem (adj : ImageAdjustments) (target : RGB)
    (maskData : Option (List Pixel)) :
    ∀ (i j : ℕ) (l : List Pixel),
      (applyPixels adj target maskData i l)[j]? =
        (l[j]?).map (fun p =>
          processPixel adj target
            (maskData.map (fun md => md.getD (i + j) ⟨0, 0, 0, 0⟩)) p) := by
  intro i j l
  induction l generalizing i j with
  | nil => simp [applyPixels]
  | cons p rest ih =>
    cases j with
    | zero => simp [applyPixels]
    | succ j =>
      simp only [applyPixels, List.getElem?_cons_succ]
      rw [ih (i + 1) j]
      have hij : i + 1 + j = i + (j + 1) := by omega
      rw [hij]

lemma processPixel_a_cases (adj : ImageAdjustments) (target : RGB)
    (maskPx : Option Pixel) (p : Pixel) :
    (processPixel adj target maskPx p).a = 0 ∨
      (processPixel adj target maskPx p).a = p.a := by
  simp only [processPixel]
  split_ifs <;> simp

lemma toneChannel_congr (adj adj2 : ImageAdjustments) (c : ℝ)
    (hb : adj2.brightness = adj.brightness) (hc : adj2.contrast = adj.contrast)
    (hg : adj2.gamma = adj.gamma) :
    toneChannel adj2 c = toneChannel adj c := by
  simp only [toneChannel, hb, hc, hg]

lemma processPixel_congr (adj adj2 : ImageAdjustments) (target : RGB)
    (maskPx : Option Pixel) (p : Pixel)
    (hb : adj2.brightness = adj.brightness) (hc : adj2.contrast = adj.contrast)
    (hg : adj2.gamma = adj.gamma) (hr : adj2.removeBg = adj.removeBg)
    (ht : adj2.bgThreshold = adj.bgThreshold)
    (hw1 : adj.bgRemoveMode ≠ .white) (hw2 : adj2.bgRemoveMode ≠ .white) :
    processPixel adj2 target maskPx p = processPixel adj target maskPx p := by
  simp only [processPixel, toneChannel_congr adj adj2 _ hb hc hg, hr,
    toleranceSq, ht, if_neg hw1, if_neg hw2]

lemma applyPixels_congr (adj adj2 : ImageAdjustments) (target : RGB)
    (maskData : Option (List Pixel))
    (h : ∀ maskPx p, processPixel adj2 target maskPx p =
      processPixel adj target maskPx p) :
    ∀ (i : ℕ) (l : List Pixel),
      applyPixels adj2 target maskData i l = applyPixels adj target maskData i l := by
  intro i l
  induction l generalizing i with
  | nil => simp [applyPixels]
  | cons p rest ih => simp [applyPixels, h, ih]

lemma resolveTarget_le_255 (adj : ImageAdjustments) (img : Image)
    (hcr : adj.customBgColor.r ≤ 255) (hcg : adj.customBgColor.g ≤ 255)
    (hcb : adj.customBgColor.b ≤ 255)
    (himg : ∀ p ∈ img.data, p.r ≤ 255 ∧ p.g ≤ 255 ∧ p.b ≤ 255) :
    (resolveTarget adj img).r ≤ 255 ∧ (resolveTarget adj img).g ≤ 255 ∧
      (resolveTarget adj img).b ≤ 255 := by
  unfold resolveTarget
  cases h : adj.removeBg with
  | false => simp
  | true =>
    cases hm : adj.bgRemoveMode with
    | white => simp
    | black => simp
    | custom => simpa using ⟨hcr, hcg, hcb⟩
    | auto =>
      simp only [if_true, if_pos rfl]
      cases hd : img.data with
      | nil => simp
      | cons p rest =>
        have := himg p (by rw [hd]; exact List.mem_cons_self p rest)
        simpa using this

/-- In the non-white removal branch with threshold 100, the squared distance
to any in-range target is below the squared tolerance, so alpha becomes 0
on every pixel that is not force-kept. -/
lemma processPixel_erases (adj : ImageAdjustments) (target : RGB)
    (maskPx : Option Pixel) (p : Pixel)
    (hrb : adj.removeBg = true) (hw : adj.bgRemoveMode ≠ .white)
    (hthr : adj.bgThreshold = 100)
    (htr : target.r ≤ 255) (htg : target.g ≤ 255) (htb : target.b ≤ 255)
    (hm : maskForceKeep maskPx = false ∨ maskForceRemove maskPx = true) :
    (processPixel adj target maskPx p).a = 0 := by
  have hbound : ∀ (x : ℝ) (n : ℕ), n ≤ 255 →
      (toneChannel adj x - (n : ℝ)) * (toneChannel adj x - (n : ℝ)) ≤ 65025 := by
    intro x n hn
    exact sq_diff_le_65025 _ _ (toneChannel_nonneg adj x) (toneChannel_le_255 adj x)
      (Nat.cast_nonneg n) (by exact_mod_cast hn)
  have hle : (toneChannel adj (p.r : ℝ) - (target.r : ℝ)) *
        (toneChannel adj (p.r : ℝ) - (target.r : ℝ)) +
      (toneChannel adj (p.g : ℝ) - (target.g : ℝ)) *
        (toneChannel adj (p.g : ℝ) - (target.g : ℝ)) +
      (toneChannel adj (p.b : ℝ) - (target.b : ℝ)) *
        (toneChannel adj (p.b : ℝ) - (target.b : ℝ)) ≤ toleranceSq adj := by
    have h1 := hbound (p.r : ℝ) target.r htr
    have h2 := hbound (p.g : ℝ) target.g htg
    have h3 := hbound (p.b : ℝ) target.b htb
    rw [toleranceSq, hthr]
    norm_num
    linarith
  by_cases hfr : maskForceRemove maskPx = true
  · simp [processPixel, hfr]
  · have hfk : maskForceKeep maskPx = false := hm.resolve_right hfr
    simp [processPixel, hfr, hfk, hrb, hw, hle]

lemma getColorDistance_lt_60_iff (c1 c2 : RGB) :
    getColorDistance c1 c2 < 60 ↔ distSqZ c1 c2 < 3600 := by
  have hcast : (((distSqZ c1 c2 : ℤ) : ℝ)) =
      ((c1.r : ℝ) - c2.r) ^ 2 + ((c1.g : ℝ) - c2.g) ^ 2 +
        ((c1.b : ℝ) - c2.b) ^ 2 := by
    simp only [distSqZ]
    push_cast
    ring
  rw [getColorDistance, ← hcast, Real.sqrt_lt' (by norm_num : (0 : ℝ) < 60)]
  constructor
  · intro h
    exact_mod_cast (by norm_num at h ⊢; exact_mod_cast h : (distSqZ c1 c2 : ℝ) < 3600)
  · intro h
    norm_num
    exact_mod_cast h

lemma selectDistinct_length (count : ℕ) :
    ∀ (l acc : List RGB), acc.length ≤ count →
      (selectDistinct count acc l).length ≤ count := by
  intro l
  induction l with
  | nil => intro acc h; simpa [selectDistinct] using h
  | cons c rest ih =>
    intro acc h
    simp only [selectDistinct]
    split_ifs with h1 h2
    · exact h
    · apply ih
      simp only [List.length_append, List.length_singleton]
      omega
    · exact ih acc h

lemma selectDistinct_pairwise (count : ℕ) :
    ∀ (l acc : List RGB),
      acc.Pairwise (fun c1 c2 => 3600 ≤ distSqZ c1 c2) →
      (selectDistinct count acc l).Pairwise (fun c1 c2 => 3600 ≤ distSqZ c1 c2) := by
  intro l
  induction l with
  | nil => intro acc h; simpa [selectDistinct] using h
  | cons c rest ih =>
    intro acc h
    simp only [selectDistinct]
    split_ifs with h1 h2
    · exact h
    · apply ih
      rw [List.pairwise_append]
      refine ⟨h, by simp, ?_⟩
      intro a ha b hb
      simp only [List.mem_singleton] at hb
      subst hb
      have h2a := List.all_eq_true.mp h2 a ha
      simp only [decide_eq_true_eq] at h2a
      omega
    · exact ih acc h

lemma selectDistinct_sublist (count : ℕ) :
    ∀ (l acc : List RGB), ∃ s, selectDistinct count acc l = acc ++ s ∧
      s.Sublist l := by
  intro l
  induction l with
  | nil => intro acc; exact ⟨[], by simp [selectDistinct]⟩
  | cons c rest ih =>
    intro acc
    simp only [selectDistinct]
    split_ifs with h1 h2
    · exact ⟨[], by simp⟩
    · obtain ⟨s, hs, hsub⟩ := ih (acc ++ [c])
      refine ⟨c :: s, ?_, hsub.cons₂ c⟩
      rw [hs, List.append_assoc, List.singleton_append]
    · obtain ⟨s, hs, hsub⟩ := ih acc
      exact ⟨s, hs, hsub.cons c⟩

lemma bumpCount_map_key (c : RGB) (e : RGB × ℕ) :
    (if e.1 = c then (e.1, e.2 + 1) else e).1 = e.1 := by
  split_ifs <;> rfl

lemma bumpCount_key_sup (acc : List (RGB × ℕ)) (c x : RGB)
    (hx : (bumpCount acc c).any (fun e => decide (e.1 = x)) = false) :
    acc.any (fun e => decide (e.1 = x)) = false ∧ x ≠ c := by
  constructor
  · by_contra hcon
    have hacc : acc.any (fun e => decide (e.1 = x)) = true := by
      cases h : acc.any (fun e => decide (e.1 = x))
      · exact absurd h hcon
      · rfl
    obtain ⟨e, he, hk⟩ := List.any_eq_true.mp hacc
    simp only [decide_eq_true_eq] at hk
    have hb : (bumpCount acc c).any (fun e => decide (e.1 = x)) = true := by
      unfold bumpCount
      split_ifs with hany
      · refine List.any_eq_true.mpr ⟨_, List.mem_map_of_mem _ he, ?_⟩
        rw [bumpCount_map_key c e, hk]
        simp
      · exact List.any_eq_true.mpr ⟨e, List.mem_append_left _ he, by simp [hk]⟩
    rw [hb] at hx
    cases hx
  · intro hxc
    subst hxc
    have hb : (bumpCount acc x).any (fun e => decide (e.1 = x)) = true := by
      unfold bumpCount
      split_ifs with hany
      · obtain ⟨e, he, hk⟩ := List.any_eq_true.mp hany
        simp only [decide_eq_true_eq] at hk
        refine List.any_eq_true.mpr ⟨_, List.mem_map_of_mem _ he, ?_⟩
        rw [bumpCount_map_key x e, hk]
        simp
      · exact List.any_eq_true.mpr ⟨(x, 1), List.mem_append_right _ (by simp),
          by simp⟩
    rw [hb] at hx
    cases hx

lemma bumpCount_entry (acc : List (RGB × ℕ)) (c : RGB) (pre : List RGB)
    (h1 : ∀ e ∈ acc, e.2 = pre.count e.1)
    (h2 : ∀ x : RGB, acc.any (fun e => decide (e.1 = x)) = false →
      pre.count x = 0) :
    ∀ e ∈ bumpCount acc c, e.2 = (pre ++ [c]).count e.1 := by
  intro e he
  unfold bumpCount at he
  split_ifs at he with hany
  · obtain ⟨e0, he0, heq⟩ := List.mem_map.mp he
    by_cases hk : e0.1 = c
    · rw [if_pos hk] at heq
      rw [← heq]
      simp [List.count_append, List.count_singleton', h1 e0 he0, hk]
    · rw [if_neg hk] at heq
      rw [← heq, h1 e0 he0]
      simp [List.count_append, List.count_singleton', Ne.symm hk]
  · have hany' : acc.any (fun e2 => decide (e2.1 = c)) = false := by
      cases h : acc.any (fun e2 => decide (e2.1 = c))
      · rfl
      · exact absurd h hany
    rcases List.mem_append.mp he with h | h
    · have hk : e.1 ≠ c := by
        intro hxe
        have hb : acc.any (fun e2 => decide (e2.1 = c)) = true :=
          List.any_eq_true.mpr ⟨e, h, by simp [hxe]⟩
        rw [hb] at hany'
        cases hany'
      rw [h1 e h]
      simp [List.count_append, List.count_singleton', Ne.symm hk]
    · simp only [List.mem_singleton] at h
      subst h
      simp [List.count_append, List.count_singleton', h2 c hany']

lemma colorCounts_count (cs : List RGB) :
    ∀ e ∈ colorCounts cs, e.2 = cs.count e.1 := by
  have main : ∀ (l pre : List RGB) (acc : List (RGB × ℕ)),
      (∀ e ∈ acc, e.2 = pre.count e.1) →
      (∀ x : RGB, acc.any (fun e => decide (e.1 = x)) = false →
        pre.count x = 0) →
      ∀ e ∈ l.foldl bumpCount acc, e.2 = (pre ++ l).count e.1 := by
    intro l
    induction l with
    | nil => intro pre acc h1 h2 e he; simpa using h1 e he
    | cons c rest ih =>
      intro pre acc h1 h2 e he
      rw [List.foldl_cons] at he
      have hstep := ih (pre ++ [c]) (bumpCount acc c)
        (bumpCount_entry acc c pre h1 h2)
        (fun x hx => by
          obtain ⟨hacc, hxc⟩ := bumpCount_key_sup acc c x hx
          simp [List.count_append, List.count_singleton', Ne.symm hxc,
            h2 x hacc])
        e he
      simpa [List.append_assoc] using hstep
  intro e he
  have := main cs [] [] (by simp) (by simp) e he
  simpa using this

lemma sortedColors_entry_count (cs : List RGB) (e : RGB × ℕ)
    (he : e ∈ List.insertionSort freqGE (colorCounts cs)) :
    e.2 = cs.count e.1 :=
  colorCounts_count cs e
    ((List.perm_insertionSort freqGE (colorCounts cs)).mem_iff.mp he)

/-- The sorted candidate list is sorted by descending quantized frequency. -/
lemma sortedColors_sorted (cs : List RGB) :
    (sortedColors cs).Pairwise (fun c1 c2 => cs.count c2 ≤ cs.count c1) := by
  have hs : (List.insertionSort freqGE (colorCounts cs)).Pairwise freqGE :=
    List.sorted_insertionSort freqGE (colorCounts cs)
  rw [sortedColors, List.pairwise_map]
  refine hs.imp_of_mem ?_
  intro a b ha hb hab
  rw [← sortedColors_entry_count cs a ha, ← sortedColors_entry_count cs b hb]
  exact hab

/-! ### Claims -/

/-- C1 counterexample: with brightness −100 and contrast −50 (gamma 1) on a
black sample, the code (no clamp between brightness and contrast) yields 0,
while clamping each stage's result before the next yields ≈41.75. -/
theorem C1_counterexample : toneChannel adjC1 0 ≠ toneChannelSpec adjC1 0 := by
  norm_num [toneChannel, toneChannelSpec, clamp255, contrastFactor, adjC1,
    min_def, max_def]

/-- C1 (amended): the brightness result is **not** clamped before contrast;
instead the combined brightness+contrast result is clamped once before the
gamma stage, and the gamma result is clamped at the end — the pipeline equals
clamp ∘ gamma ∘ clamp ∘ contrast ∘ brightness. -/
theorem C1_tone_clamp_structure (adj : ImageAdjustments) (c : ℝ) :
    toneChannel adj c =
      clamp255 (gammaMap adj
        (clamp255 (contrastFactor adj.contrast * (c + adj.brightness - 128) + 128))) := by
  simp only [toneChannel, gammaMap]
  by_cases h : adj.gamma = 1
  · rw [if_pos h, if_pos h, clamp255_idem]
  · rw [if_neg h, if_neg h]

/-- C2 counterexample: in auto mode the target actually used is the source
corner pixel (100,100,100), not the adjusted corner (here (150,150,150)
after brightness 50); consequently the corner pixel itself survives a
tolerance-0 auto removal (alpha stays 255) although it is exactly the
adjusted background. -/
theorem C2_counterexample :
    ((resolveTarget adjC2 imgC2).r : ℝ) ≠
        toneChannel adjC2 ((imgC2.data.headD ⟨0, 0, 0, 0⟩).r : ℝ) ∧
      (applyAttributes imgC2 adjC2 none).map (fun q => q.a) = [255] := by
  constructor
  · norm_num [resolveTarget, toneChannel, clamp255, contrastFactor, adjC2,
      imgC2, min_def, max_def]
  · norm_num [applyAttributes, applyPixels, processPixel, resolveTarget,
      toneChannel, clamp255, contrastFactor, toleranceSq, maskForceRemove,
      maskForceKeep, adjC2, imgC2, min_def, max_def]

/-- C2 (amended): the auto background target is the **source** buffer's (0,0)
pixel, sampled before brightness/contrast/gamma run: auto mode produces
exactly the output of custom mode with the source corner pixel's RGB as the
custom background colour. -/
theorem C2_auto_target_is_source_corner (img : Image) (adj : ImageAdjustments)
    (userMask : Option Image)
    (hrb : adj.removeBg = true) (hmode : adj.bgRemoveMode = .auto) :
    applyAttributes img adj userMask =
      applyAttributes img (autoAsCustom img adj) userMask := by
  have hres : resolveTarget (autoAsCustom img adj) img = resolveTarget adj img := by
    simp [resolveTarget, autoAsCustom, hrb, hmode]
  have hw1 : adj.bgRemoveMode ≠ .white := by simp [hmode]
  have hw2 : (autoAsCustom img adj).bgRemoveMode ≠ .white := by simp [autoAsCustom]
  simp only [applyAttributes, autoAsCustom] at hres ⊢
  rw [hres]
  exact (applyPixels_congr adj (autoAsCustom img adj) (resolveTarget adj img) _
    (fun mp p => processPixel_congr adj (autoAsCustom img adj) _ mp p
      rfl rfl rfl rfl rfl hw1 hw2) 0 img.data).symm

/-- C2 witness: the amended equivalence at the concrete 1×1 grey image. -/
theorem C2_witness :
    applyAttributes imgC2 adjC2 none =
      applyAttributes imgC2 (autoAsCustom imgC2 adjC2) none :=
  C2_auto_target_is_source_corner imgC2 adjC2 none rfl rfl

/-- C3: a pixel whose mask entry has both Red>10 and Green>10 is erased
(alpha 0): force-erase strictly precedes force-keep. -/
theorem C3_erase_precedes_keep (img : Image) (adj : ImageAdjustments)
    (mask : Image) (i : ℕ) (op : OutPixel)
    (hw : mask.width = img.width) (hh : mask.height = img.height)
    (hr : 10 < (mask.data.getD i ⟨0, 0, 0, 0⟩).r)
    (_hg : 10 < (mask.data.getD i ⟨0, 0, 0, 0⟩).g)
    (hout : (applyAttributes img adj (some mask))[i]? = some op) :
    op.a = 0 := by
  simp only [applyAttributes, if_pos (And.intro hw hh), applyPixels_getElem,
    Nat.zero_add, Option.map_eq_some'] at hout
  obtain ⟨p, hp, hpe⟩ := hout
  rw [← hpe]
  simp only [processPixel, Option.map_some', maskForceRemove,
    decide_eq_true_eq, if_pos hr]

/-- C3 witness: with both mask channels above 10, the output alpha is 0. -/
theorem C3_witness :
    (processPixel adjId (resolveTarget adjId imgW3)
        (some ⟨200, 200, 0, 0⟩) ⟨5, 6, 7, 200⟩).a = 0 :=
  C3_erase_precedes_keep imgW3 adjId maskW3 0 _ rfl rfl (by decide) (by decide) rfl

/-- C4: the alpha produced by the adjustment/background-removal/mask stage
never exceeds the source pixel's alpha. -/
theorem C4_alpha_monotone (img : Image) (adj : ImageAdjustments)
    (userMask : Option Image) (i : ℕ) (op : OutPixel) (p : Pixel)
    (hout : (applyAttributes img adj userMask)[i]? = some op)
    (hsrc : img.data[i]? = some p) :
    op.a ≤ p.a := by
  simp only [applyAttributes, applyPixels_getElem, Nat.zero_add, hsrc,
    Option.map_some', Option.some.injEq] at hout
  rw [← hout]
  rcases processPixel_a_cases adj (resolveTarget adj img) _ p with h | h <;>
    rw [h]
  exact Nat.zero_le _

/-- C4 witness: alpha monotonicity at a concrete semi-transparent pixel. -/
theorem C4_witness :
    (processPixel adjId (resolveTarget adjId imgW3) none ⟨5, 6, 7, 200⟩).a ≤ 200 :=
  C4_alpha_monotone imgW3 adjId none 0 _ ⟨5, 6, 7, 200⟩ rfl rfl

/-- C5: an opaque black pixel separates to C=M=Y=0, K=255 — the division by
`1-k` is guarded at `k=1`, producing 0 rather than NaN. -/
theorem C5_cmyk_black_guard (buf : List Pixel) (i : ℕ)
    (h : buf[i]? = some ⟨0, 0, 0, 255⟩) :
    (processCMYK buf)[i]? = some ((0 : ℚ), (0 : ℚ), (0 : ℚ), (255 : ℚ)) := by
  simp only [processCMYK, List.getElem?_map, h, Option.map_some']
  norm_num [cmykPixel]

/-- C5 witness: the guard at the concrete one-pixel buffer. -/
theorem C5_witness :
    (processCMYK [⟨0, 0, 0, 255⟩])[0]? =
      some ((0 : ℚ), (0 : ℚ), (0 : ℚ), (255 : ℚ)) :=
  C5_cmyk_black_guard [⟨0, 0, 0, 255⟩] 0 rfl

/-- C6: a pixel with positive alpha whose RGB equals the spot target's RGB
has similarity 1 whatever the threshold, hence density `255 * alpha`. -/
theorem C6_spot_exact_match (t : SpotTarget) (p : Pixel)
    (ha : 0 < p.a) (hr : t.r = p.r) (hg : t.g = p.g) (hb : t.b = p.b) :
    spotDensity t p = 255 * ((p.a : ℝ) / 255) := by
  have ha' : (0 : ℝ) < (p.a : ℝ) / 255 := by
    have h0 : (0 : ℝ) < (p.a : ℝ) := by exact_mod_cast ha
    positivity
  have hsim : spotSimilarity t p.r p.g p.b = 1 := by
    simp only [spotSimilarity, hr, hg, hb]
    norm_num
  simp only [spotDensity, if_neg ha'.ne', hsim, one_mul]

/-- C6 witness: an exact-match opaque pixel at threshold 50. -/
theorem C6_witness :
    spotDensity ⟨10, 20, 30, 50⟩ ⟨10, 20, 30, 255⟩ =
      255 * (((255 : ℕ) : ℝ) / 255) :=
  C6_spot_exact_match ⟨10, 20, 30, 50⟩ ⟨10, 20, 30, 255⟩ (by norm_num) rfl rfl rfl

/-- C7: the white-underbase separator makes one global decision — if some
pixel has alpha < 250, every density is that pixel's alpha; otherwise every
density is 255 minus the pixel's luma. -/
theorem C7_white_underbase_global_decision (buf : List Pixel) :
    ((∃ p ∈ buf, p.a < 250) →
        processWhiteBase buf = buf.map (fun p => (p.a : ℚ))) ∧
      ((∀ p ∈ buf, 250 ≤ p.a) →
        processWhiteBase buf = buf.map (fun p =>
          (255 : ℚ) - (0.299 * (p.r : ℚ) + 0.587 * (p.g : ℚ) +
            0.114 * (p.b : ℚ)))) := by
  constructor
  · intro h
    have ht : hasTransparency buf = true := by
      obtain ⟨p, hp, ha⟩ := h
      simp only [hasTransparency, List.any_eq_true, decide_eq_true_eq]
      exact ⟨p, hp, ha⟩
    simp [processWhiteBase, ht]
  · intro h
    have ht : hasTransparency buf = false := by
      simp only [hasTransparency, List.any_eq_false, decide_eq_true_eq]
      intro p hp
      exact Nat.not_lt.mpr (h p hp)
    simp [processWhiteBase, ht, lumaQ]

/-- C7 witness: a buffer with a transparent pixel uses alpha as density; a
fully opaque black buffer uses 255 − luma = 255. -/
theorem C7_witness :
    processWhiteBase [⟨10, 20, 30, 100⟩] = [(100 : ℚ)] ∧
      processWhiteBase [⟨0, 0, 0, 255⟩] = [(255 : ℚ)] := by
  constructor
  · have h := (C7_white_underbase_global_decision [⟨10, 20, 30, 100⟩]).1
      ⟨⟨10, 20, 30, 100⟩, by simp, by norm_num⟩
    simpa using h
  · have h := (C7_white_underbase_global_decision [⟨0, 0, 0, 255⟩]).2 (by decide)
    simpa using h

/-- C8: the extractor returns at most `count` colours, pairwise at Euclidean
distance ≥ 60, listed in descending order of quantized-colour frequency
among the sampled (alpha ≥ 128) pixels. -/
theorem C8_extract_dominant_contract (buf : List Pixel) (count : ℕ) :
    (extractDominantColors buf count).length ≤ count ∧
      (extractDominantColors buf count).Pairwise
        (fun c1 c2 => (60 : ℝ) ≤ getColorDistance c1 c2) ∧
      (extractDominantColors buf count).Pairwise
        (fun c1 c2 => (sampledColors buf).count c2 ≤ (sampledColors buf).count c1) := by
  refine ⟨selectDistinct_length count _ [] (by simp), ?_, ?_⟩
  · have hp := selectDistinct_pairwise count (sortedColors (sampledColors buf))
      [] (by simp)
    refine hp.imp ?_
    intro a b h
    by_contra hlt
    push_neg at hlt
    have := (getColorDistance_lt_60_iff a b).mp hlt
    omega
  · obtain ⟨s, hs, hsub⟩ :=
      selectDistinct_sublist count (sortedColors (sampledColors buf)) []
    rw [extractDominantColors, hs, List.nil_append]
    exact (sortedColors_sorted (sampledColors buf)).sublist hsub

/-- C9: a mask whose dimensions differ from the source's is discarded
wholesale — the output is the one produced with no mask at all. -/
theorem C9_mismatched_mask_ignored (img : Image) (adj : ImageAdjustments)
    (mask : Image)
    (hmm : mask.width ≠ img.width ∨ mask.height ≠ img.height) :
    applyAttributes img adj (some mask) = applyAttributes img adj none := by
  simp only [applyAttributes]
  rw [if_neg (by tauto)]

/-- C9 witness: the mismatched 2×1 mask is ignored on the 1×1 image. -/
theorem C9_witness :
    applyAttributes imgW3 adjId (some maskBad) = applyAttributes imgW3 adjId none :=
  C9_mismatched_mask_ignored imgW3 adjId maskBad (Or.inl (by decide))

/-- C10: with removal on, mode black/custom/auto, and threshold 100, every
pixel that is not protected by a mask force-keep comes out with alpha 0:
the squared tolerance 442² = 195364 strictly exceeds the maximal squared
RGB distance 3·255² = 195075. -/
theorem C10_threshold100_erases_everything (img : Image) (adj : ImageAdjustments)
    (userMask : Option Image) (i : ℕ) (op : OutPixel)
    (hrb : adj.removeBg = true)
    (hmode : adj.bgRemoveMode = .black ∨ adj.bgRemoveMode = .custom ∨
      adj.bgRemoveMode = .auto)
    (hthr : adj.bgThreshold = 100)
    (hcr : adj.customBgColor.r ≤ 255) (hcg : adj.customBgColor.g ≤ 255)
    (hcb : adj.customBgColor.b ≤ 255)
    (himg : ∀ p ∈ img.data, p.r ≤ 255 ∧ p.g ≤ 255 ∧ p.b ≤ 255)
    (hmask : ∀ m, userMask = some m → m.width = img.width →
      m.height = img.height →
      (m.data.getD i ⟨0, 0, 0, 0⟩).g ≤ 10 ∨ 10 < (m.data.getD i ⟨0, 0, 0, 0⟩).r)
    (hout : (applyAttributes img adj userMask)[i]? = some op) :
    op.a = 0 := by
  have hw : adj.bgRemoveMode ≠ .white := by
    rcases hmode with h | h | h <;> simp [h]
  obtain ⟨htr, htg, htb⟩ := resolveTarget_le_255 adj img hcr hcg hcb himg
  simp only [applyAttributes, applyPixels_getElem, Nat.zero_add,
    Option.map_eq_some'] at hout
  obtain ⟨p, hp, hpe⟩ := hout
  rw [← hpe]
  apply processPixel_erases adj _ _ p hrb hw hthr htr htg htb
  cases userMask with
  | none => left; rfl
  | some m =>
    by_cases hd : m.width = img.width ∧ m.height = img.height
    · rcases hmask m rfl hd.1 hd.2 with hkeep | hrem
      · left
        simp only [if_pos hd, Option.map_some', maskForceKeep,
          decide_eq_false_iff_not]
        omega
      · right
        simp only [if_pos hd, Option.map_some', maskForceRemove,
          decide_eq_true_eq]
        exact hrem
    · left
      simp [if_neg hd, maskForceKeep]

/-- C10 witness: the opaque grey pixel of the 1×1 image is erased at
threshold 100 in black mode. -/
theorem C10_witness :
    (processPixel adjC10 (resolveTarget adjC10 imgC2) none
        ⟨100, 100, 100, 255⟩).a = 0 :=
  C10_threshold100_erases_everything imgC2 adjC10 none 0 _ rfl (Or.inl rfl) rfl
    (by decide) (by decide) (by decide) (by decide)
    (fun m hm => nomatch hm) rfl

end ColorSep
